import Mathlib

/-!
# Verification of the wotcs clan-dashboard sync pipeline

Shallow embedding of the periodic reconciliation sync of `app/main.py`
(`fetch_and_sync`, lines 314-511) and of the durable metadata cache of
`app/utils/tank_cache.py`.

Modelling conventions:
* Remote HTTP results are an oracle (`World`): `none` models a raised
  exception (network error / timeout / bad status / JSON error), `some xs`
  the decoded payload after the code's `.get(...) or []` massaging.
* Python truthiness is modelled explicitly where the source relies on it
  (`a or b` chains on strings/ints/dicts, `if v:` on decoded JSON values).
* Machine time is an oracle too: `now` is the `int(time.time())` read at
  entry, `World.exitTime` the one read in the `finally` block.
* SQLModel sessions are modelled with an explicit
  (committed-state, in-transaction pending rows) pair: `session.commit()`
  publishes pending rows, `session.rollback()` discards them.  Committed
  snapshots are recorded in the effect trace, as are all remote calls and
  cache-file saves.
* Python `set` iteration order is unspecified; we fix first-insertion order
  (all claims below are order-independent).
* The float expression `0.25 * max(1, len(unique_tank_ids))` is modelled
  over ℚ; it is exact in IEEE double for every realistic list length.
-/

namespace Wotcs

/-- Python `a or b` for an optional string `a` (an absent dict key or a
`None`), where the empty string is falsy. -/
def strOr (a : Option String) (b : String) : String :=
  match a with
  | some s => if s = "" then b else s
  | none => b

/-- Python `a or b` on optional ints where `0` is falsy
(`meta.get("tier") or meta.get("level") or None`). -/
def pyOrInt (a b : Option Int) : Option Int :=
  match a with
  | some x => if x = 0 then b else some x
  | none => b

/-- One entry of the clan-info `members` payload.  `account_id = none`
models a member whose `int(m.get("account_id"))` raises (the loop then
`continue`s); the name fields are the `account_name` / `nickname` keys. -/
structure Member where
  account_id : Option Int
  account_name : Option String
  nickname : Option String
deriving DecidableEq, Repr

/-- One entry of the `/wot/account/tanks/` payload for one account.
`tank_id` is the value of `it.get("tank_id") or it.get("tankId") or 0`
after `int(...)`: `none` models a raised parse error, `some 0` a missing
or zero id (both are skipped).  `battles`/`wins` are
`statistics.get(...)` (absent key = `none`); `mark` is
`it.get("mark_of_mastery")`. -/
structure TankItem where
  tank_id : Option Int
  battles : Option Int
  wins : Option Int
  mark : Option Int
deriving DecidableEq, Repr

/-- A JSON value sitting in the encyclopedia response / tank cache:
either JSON `null` or an object carrying the fields the sync reads
(`tier`, `level`, `name`, `localized_name`); `extra` records whether the
object holds any further keys (this only matters for Python truthiness
of the dict). -/
inductive MetaVal where
  | null
  | obj (tier level : Option Int) (name localizedName : Option String) (extra : Bool)
deriving DecidableEq, Repr

/-- Python truthiness of a decoded JSON value: `null` is falsy, a dict is
truthy iff nonempty. -/
def MetaVal.truthy : MetaVal → Bool
  | .null => false
  | .obj t l n ln extra => t.isSome || l.isSome || n.isSome || ln.isSome || extra

/-- The empty dict. -/
def MetaVal.emptyObj : MetaVal := .obj none none none none false

/-- A `garagetank` row as created by the sync.  The columns the sync never
assigns (`is_premium`, `nation`, `type`, `image_url`, `raw_json` — note
the code probes `hasattr(gt, "raw_stats")`, which the model lacks, so
`raw_json` is never written) keep their model defaults and are omitted. -/
structure GarageTank where
  account_id : Int
  tank_id : Int
  tank_name : String
  tier : Int
  battles : Int
  wins : Int
  mark_of_mastery : Option Int
  last_updated : Int
deriving DecidableEq, Repr

/-- The in-memory `TANK_CACHE`: a string-keyed insertion-ordered mapping,
as a Python dict is. -/
abbrev Cache := List (String × MetaVal)

/-- The `player` table: `account_id → nickname`, insertion-ordered. -/
abbrev Players := List (Int × String)

/-- The relational store the sync touches. -/
structure DB where
  players : Players
  tanks : List GarageTank
deriving DecidableEq, Repr

/-- The module-level coordinator state: `SYNC_RUNNING` and `LAST_SYNC_TS`. -/
structure SyncState where
  running : Bool
  lastSyncTs : Int
deriving DecidableEq, Repr

/-- Environment-derived configuration with the source defaults:
`ENCYCLOPEDIA_BATCH = 50`, `MIN_SYNC_INTERVAL = 45`. -/
structure Config where
  encyclopediaBatch : Nat := 50
  minSyncInterval : Int := 45

/-- Outcomes of the remote calls and of the fallible persistence steps of
one run, plus the exit-time clock read.  `none` / `false` model a raised
exception at that point. -/
structure World where
  membersResult : Option (List Member)
  tanksResult : Int → Option (List TankItem)
  batchResult : List Int → Option (List (String × MetaVal))
  dumpResult : Option (List (String × MetaVal))
  playerCommitOk : Bool
  deleteOk : Int → Bool
  finalCommitOk : Bool
  exitTime : Int

/-- The remote endpoints `fetch_and_sync` can hit. -/
inductive RemoteCall where
  | membersCall
  | tanksCall (acc : Int)
  | batchCall (ids : List Int)
  | dumpCall
deriving DecidableEq, Repr

/-- Externally observable events of one run, in order: remote requests,
committed database snapshots, and writes of the durable cache file. -/
inductive Effect where
  | remote (c : RemoteCall)
  | dbCommit (players : Players) (tanks : List GarageTank)
  | cacheSave (c : Cache)
deriving DecidableEq, Repr

/-- Result of one `fetch_and_sync` invocation. -/
structure RunResult where
  state : SyncState
  db : DB
  cache : Cache
  effects : List Effect
deriving Repr

/-! ## Dict primitives -/

/-- Lookup in an insertion-ordered string-keyed dict. -/
def lookupS (c : Cache) (k : String) : Option MetaVal :=
  (c.find? (fun p => p.1 = k)).map Prod.snd

/-- Python `d[k] = v` on an insertion-ordered dict: overwrite in place if
the key exists, else append. -/
def dictInsertS (c : Cache) (k : String) (v : MetaVal) : Cache :=
  if (c.map Prod.fst).contains k then
    c.map (fun p => if p.1 = k then (k, v) else p)
  else c ++ [(k, v)]

/-- Python `d[k] = v` for the int-keyed `account_tanks_map`. -/
def dictInsertI (m : List (Int × List TankItem)) (k : Int) (v : List TankItem) :
    List (Int × List TankItem) :=
  if (m.map Prod.fst).contains k then
    m.map (fun p => if p.1 = k then (k, v) else p)
  else m ++ [(k, v)]

/-! ## Stage (a)/(b): roster fetch and player upsert (lines 335-368) -/

/-- Source expression `nickname = m.get("account_name") or m.get("nickname") or
the placeholder` (line 359), with the player placeholder as last resort. -/
def memberNick (acc : Int) (m : Member) : String :=
  strOr m.account_name (strOr m.nickname ("player_" ++ toString acc))

/-- The `account_ids` list: members whose `account_id` parses, in order
(duplicates kept, as in the source list). -/
def parsedAccounts (members : List Member) : List Int :=
  members.filterMap (fun m => m.account_id)

/-- Source `s.get(Player, acc)` followed by insert-or-update-nickname. -/
def upsertPlayer (ps : Players) (acc : Int) (nick : String) : Players :=
  if (ps.map Prod.fst).contains acc then
    ps.map (fun p => if p.1 = acc then (acc, nick) else p)
  else ps ++ [(acc, nick)]

/-- The player-upsert loop over the members payload (lines 352-368). -/
def upsertMembers (ps : Players) (members : List Member) : Players :=
  members.foldl
    (fun ps m =>
      match m.account_id with
      | some a => upsertPlayer ps a (memberNick a m)
      | none => ps)
    ps

/-! ## Stage (c): per-account inventory fetch (lines 370-394) -/

/-- Source `items = j.get("data", ...).get(str(acc), []) or []`, with `[]` on any
exception. -/
def fetchItems (w : World) (acc : Int) : List TankItem :=
  (w.tanksResult acc).getD []

/-- The `account_tanks_map` dict built over the `account_ids` loop. -/
def gatherMap (w : World) (accs : List Int) : List (Int × List TankItem) :=
  accs.foldl (fun m acc => dictInsertI m acc (fetchItems w acc)) []

/-- The nonzero, successfully parsed tank ids contributed by one item list
(the code guards `if tid:` before `unique_tank_ids.add(int(tid))`). -/
def itemIds (items : List TankItem) : List Int :=
  items.filterMap (fun it =>
    match it.tank_id with
    | some t => if t = 0 then none else some t
    | none => none)

/-- Insert into the `unique_tank_ids` set, modelled in first-insertion
order. -/
def insertUnique (l : List Int) (x : Int) : List Int :=
  if l.contains x then l else l ++ [x]

/-- The `unique_tank_ids` set accumulated across all accounts. -/
def uniqueIds (m : List (Int × List TankItem)) : List Int :=
  m.foldl (fun acc p => (itemIds p.2).foldl insertUnique acc) []

/-! ## Stage (d): metadata resolution (lines 396-445) -/

/-- Source `missing = [tid for tid in unique_tank_ids if str(tid) not in TANK_CACHE]`. -/
def missingOf (cache : Cache) (unique : List Int) : List Int :=
  unique.filter (fun tid => (lookupS cache (toString tid)).isNone)

/-- Source slices `missing[i:i+B]` for `i in range(0, len(missing), B)`, fuelled
by the list length (each step with `B ≥ 1` strictly shrinks the list; a
zero `B` would raise in Python and never terminates the range, the fuel
then yields `length` empty slices). -/
def chunksAux (B : Nat) : Nat → List Int → List (List Int)
  | 0, _ => []
  | _, [] => []
  | Nat.succ fuel, l => l.take B :: chunksAux B fuel (l.drop B)

/-- The batch decomposition of the missing-id list. -/
def chunks (B : Nat) (l : List Int) : List (List Int) :=
  chunksAux B l.length l

/-- Cache update from one decoded batch payload: `if v: TANK_CACHE[str(k)] = v`
— only truthy metadata values are stored. -/
def applyBatchEntries (c : Cache) (entries : List (String × MetaVal)) : Cache :=
  entries.foldl (fun c kv => if kv.2.truthy then dictInsertS c kv.1 kv.2 else c) c

/-- Cache update from the full-catalog dump: `TANK_CACHE[str(k)] = v`
unconditionally, truthy or not. -/
def applyDumpEntries (c : Cache) (entries : List (String × MetaVal)) : Cache :=
  entries.foldl (fun c kv => dictInsertS c kv.1 kv.2) c

/-- The batch loop (lines 401-422): per batch, issue the request; on
success store truthy entries and save the cache file; on failure log and
continue. -/
def runBatches (w : World) : Cache → List (List Int) → Cache × List Effect
  | c, [] => (c, [])
  | c, b :: bs =>
    match w.batchResult b with
    | some entries =>
      let c1 := applyBatchEntries c entries
      let rest := runBatches w c1 bs
      (rest.1, Effect.remote (.batchCall b) :: Effect.cacheSave c1 :: rest.2)
    | none =>
      let rest := runBatches w c bs
      (rest.1, Effect.remote (.batchCall b) :: rest.2)

/-- Source condition `len(missing_after) > 0 and len(missing_after) > 0.25 * max(1,
len(unique_tank_ids))`.  The float product `0.25 * max(1, n)` is exact in
IEEE double for every realistic `n`; the condition is stated in the
equivalent integer form so that it evaluates, and `dumpCond_rat` below
proves it equal to the exact rational rendering of the source
expression. -/
def dumpCond (mAfter n : Nat) : Bool :=
  decide (0 < mAfter) && decide (max 1 n < 4 * mAfter)

/-- The whole resolution stage: compute `missing`; if nonempty run the
batches, re-compute `missing_after`, and perform the one-shot full dump
when the 25% threshold is exceeded (storing its entries unconditionally
and saving the cache file). -/
def resolveStage (cfg : Config) (w : World) (cache : Cache) (unique : List Int) :
    Cache × List Effect :=
  let missing := missingOf cache unique
  if missing.isEmpty then (cache, [])
  else
    let br := runBatches w cache (chunks cfg.encyclopediaBatch missing)
    let missingAfter := missingOf br.1 unique
    if dumpCond missingAfter.length unique.length then
      match w.dumpResult with
      | some entries =>
        let c2 := applyDumpEntries br.1 entries
        (c2, br.2 ++ [Effect.remote .dumpCall, Effect.cacheSave c2])
      | none => (br.1, br.2 ++ [Effect.remote .dumpCall])
    else (br.1, br.2)

/-! ## Stage (e): replace-on-write persistence (lines 447-503) -/

/-- Source `meta = TANK_CACHE.get(str(tid), ...) or ...` with the empty dict as
default and as falsy fallback. -/
def cacheMeta (cache : Cache) (tid : Int) : MetaVal :=
  match lookupS cache (toString tid) with
  | some v => if v.truthy then v else MetaVal.emptyObj
  | none => MetaVal.emptyObj

/-- Source `tier = meta.get("tier") or meta.get("level") or None`, then
`int(tier) if tier is not None else None`. -/
def metaTier : MetaVal → Option Int
  | .null => none
  | .obj t l _ _ _ => pyOrInt t (pyOrInt l none)

/-- Source `name = meta.get("name") or meta.get("localized_name")` with the `Tank
id` placeholder as last resort. -/
def metaName (m : MetaVal) (tid : Int) : String :=
  match m with
  | .null => "Tank " ++ toString tid
  | .obj _ _ n ln _ => strOr n (strOr ln ("Tank " ++ toString tid))

/-- The row constructed for one inventory item, or `none` when the item is
skipped (unparsable/zero id, or resolved tier outside 6/8/10). -/
def buildRow (now : Int) (cache : Cache) (acc : Int) (it : TankItem) :
    Option GarageTank :=
  match it.tank_id with
  | none => none
  | some tid =>
    if tid = 0 then none
    else
      match metaTier (cacheMeta cache tid) with
      | none => none
      | some tier =>
        if tier = 6 ∨ tier = 8 ∨ tier = 10 then
          some
            { account_id := acc
              tank_id := tid
              tank_name := metaName (cacheMeta cache tid) tid
              tier := tier
              battles := it.battles.getD 0
              wins := it.wins.getD 0
              mark_of_mastery := it.mark
              last_updated := now }
        else none

/-- All rows one account's item list contributes. -/
def buildRows (now : Int) (cache : Cache) (acc : Int) (items : List TankItem) :
    List GarageTank :=
  items.filterMap (buildRow now cache acc)

/-- The per-account loop of stage (e), with explicit session semantics:
state is (committed rows, pending unflushed inserts).  For each account,
`delete(...)` + `commit()` flushes the pending inserts of earlier
accounts, removes the account's rows, and publishes the result (recorded
as a `dbCommit` snapshot); a raised delete is rolled back, discarding the
pending inserts.  The account's own new rows are then `add`ed, staying
pending until the next commit. -/
def stageEGo (now : Int) (w : World) (cache : Cache) (players : Players) :
    List GarageTank → List GarageTank → List (Int × List TankItem) →
    List GarageTank × List GarageTank × List Effect
  | committed, pending, [] => (committed, pending, [])
  | committed, pending, (acc, items) :: rest =>
    if w.deleteOk acc then
      let c1 := (committed ++ pending).filter (fun r => r.account_id ≠ acc)
      let r := stageEGo now w cache players c1 (buildRows now cache acc items) rest
      (r.1, r.2.1, Effect.dbCommit players c1 :: r.2.2)
    else
      stageEGo now w cache players committed (buildRows now cache acc items) rest

/-- Stage (e) in full: the account loop followed by the single final
`s.commit()` (line 503) that publishes every still-pending insert; a
raised final commit leaves the last committed state standing and
propagates to the coordinator's outer handler. -/
def stageE (now : Int) (w : World) (cache : Cache) (players : Players)
    (tanks0 : List GarageTank) (accMap : List (Int × List TankItem)) :
    List GarageTank × List Effect :=
  let st := stageEGo now w cache players tanks0 [] accMap
  if w.finalCommitOk then
    let c1 := st.1 ++ st.2.1
    (c1, st.2.2 ++ [Effect.dbCommit players c1])
  else (st.1, st.2.2)

/-! ## The coordinator (lines 314-511) -/

/-- The decoded members payload an entered run works with (`[]` on a
raised roster fetch). -/
def syncMembers (w : World) : List Member :=
  w.membersResult.getD []

/-- The `account_tanks_map` of an entered, non-aborted run. -/
def syncAccMap (w : World) : List (Int × List TankItem) :=
  gatherMap w (parsedAccounts (syncMembers w))

/-- The `unique_tank_ids` of an entered, non-aborted run. -/
def syncUnique (w : World) : List Int :=
  uniqueIds (syncAccMap w)

/-- The `missing` list of the run, against the cache at resolution start. -/
def syncMissing (cache : Cache) (w : World) : List Int :=
  missingOf cache (syncUnique w)

/-- The cache after the batch loop, before the fallback decision. -/
def syncCacheAfterBatches (cfg : Config) (w : World) (cache : Cache) : Cache :=
  (runBatches w cache (chunks cfg.encyclopediaBatch (syncMissing cache w))).1

/-- The `missing_after` list driving the 25% fallback decision. -/
def syncMissingAfter (cfg : Config) (w : World) (cache : Cache) : List Int :=
  missingOf (syncCacheAfterBatches cfg w cache) (syncUnique w)

/-- The cache stage (e) resolves against (after batches and optional dump). -/
def syncFinalCache (cfg : Config) (w : World) (cache : Cache) : Cache :=
  (resolveStage cfg w cache (syncUnique w)).1

/-- The body of an entered run (the `try:` block, lines 332-505): roster
fetch, empty-roster early abort, player upsert commit, inventory
collection, metadata resolution, per-account replace.  Returns the final
database, cache and the ordered effect trace. -/
def runBody (cfg : Config) (now : Int) (w : World) (db : DB) (cache : Cache) :
    DB × Cache × List Effect :=
  let members := syncMembers w
  if members.isEmpty then (db, cache, [Effect.remote .membersCall])
  else if w.playerCommitOk then
    let players := upsertMembers db.players members
    let accMap := gatherMap w (parsedAccounts members)
    let unique := uniqueIds accMap
    let rs := resolveStage cfg w cache unique
    let es := stageE now w rs.1 players db.tanks accMap
    (⟨players, es.1⟩, rs.1,
      Effect.remote .membersCall :: Effect.dbCommit players db.tanks ::
        ((parsedAccounts members).map (fun a => Effect.remote (.tanksCall a))
          ++ rs.2 ++ es.2))
  else (db, cache, [Effect.remote .membersCall])

/-- Source `fetch_and_sync`: the Idle→Running entry guard (`SYNC_RUNNING`, then
the `MIN_SYNC_INTERVAL` debounce, both returning before any effect), then
the pipeline body, then the unconditional `finally:` that stamps
`LAST_SYNC_TS` and clears `SYNC_RUNNING` on every exit of an entered run
— normal, early-abort or exceptional. -/
def fetchAndSync (cfg : Config) (now : Int) (w : World) (st : SyncState)
    (db : DB) (cache : Cache) : RunResult :=
  if st.running then ⟨st, db, cache, []⟩
  else if now - st.lastSyncTs < cfg.minSyncInterval then ⟨st, db, cache, []⟩
  else
    let r := runBody cfg now w db cache
    ⟨⟨false, w.exitTime⟩, r.1, r.2.1, r.2.2⟩

/-- Rows of one account. -/
def tanksFor (a : Int) (ts : List GarageTank) : List GarageTank :=
  ts.filter (fun r => r.account_id = a)

/-- Rows whose account is outside a key set; `stageEGo` leaves exactly
these untouched. -/
def purgeAccounts (ks : List Int) (ts : List GarageTank) : List GarageTank :=
  ts.filter (fun r => decide (r.account_id ∉ ks))

/-- All rows stage (e) builds, account blocks in map order. -/
def allRows (now : Int) (cache : Cache) : List (Int × List TankItem) → List GarageTank
  | [] => []
  | p :: rest => buildRows now cache p.1 p.2 ++ allRows now cache rest

/-- Recogniser of the full-catalog dump request in an effect trace. -/
def isDumpEffect : Effect → Bool
  | .remote .dumpCall => true
  | _ => false

/-- Recogniser of a batched encyclopedia request in an effect trace. -/
def isBatchEffect : Effect → Bool
  | .remote (.batchCall _) => true
  | _ => false

/-! ## The durable cache file (`app/utils/tank_cache.py`)

The cache file holds one JSON document.  `json.dump` / `json.load` of the
Python standard library are modelled at the token level: the file content
is the token stream of the document (lexing, whitespace/indentation and
string escaping are the standard library's, outside this repository).
Numbers are modelled as integers — the cache payloads carry ints and
strings, and Python floats round-trip exactly through `repr` anyway. -/

/-- One lexical token of a JSON document. -/
inductive Jtok where
  | lbrace
  | rbrace
  | lbrack
  | rbrack
  | colon
  | comma
  | jnull
  | jbool (b : Bool)
  | jnum (n : Int)
  | jstr (s : String)
deriving DecidableEq, Repr

/-- A JSON document: the values `json.dump` accepts and `json.load`
produces (dicts as insertion-ordered key/value lists, as Python dicts
are). -/
inductive Jval where
  | null
  | bool (b : Bool)
  | num (n : Int)
  | str (s : String)
  | arr (elems : List Jval)
  | obj (fields : List (String × Jval))

mutual

/-- Serialisation of one JSON value to its token stream (`json.dump`). -/
def render : Jval → List Jtok
  | .null => [.jnull]
  | .bool b => [.jbool b]
  | .num n => [.jnum n]
  | .str s => [.jstr s]
  | .arr es => .lbrack :: (renderElems es ++ [.rbrack])
  | .obj fs => .lbrace :: (renderFields fs ++ [.rbrace])

/-- Comma-separated array elements. -/
def renderElems : List Jval → List Jtok
  | [] => []
  | [e] => render e
  | e :: es => render e ++ .comma :: renderElems es

/-- Comma-separated `key : value` object members. -/
def renderFields : List (String × Jval) → List Jtok
  | [] => []
  | [(k, v)] => .jstr k :: .colon :: render v
  | (k, v) :: fs => (.jstr k :: .colon :: render v) ++ .comma :: renderFields fs

end

mutual

/-- Recursive-descent parsing of one JSON value from a token stream
(`json.load`), fuelled; returns the value and the unconsumed suffix. -/
def parseVal : Nat → List Jtok → Option (Jval × List Jtok)
  | 0, _ => none
  | _ + 1, [] => none
  | fuel + 1, t :: ts =>
    match t with
    | .jnull => some (.null, ts)
    | .jbool b => some (.bool b, ts)
    | .jnum n => some (.num n, ts)
    | .jstr s => some (.str s, ts)
    | .lbrack =>
      if ts.head? = some Jtok.rbrack then some (.arr [], ts.tail)
      else
        match parseElems fuel ts with
        | some (es, Jtok.rbrack :: ts1) => some (.arr es, ts1)
        | _ => none
    | .lbrace =>
      if ts.head? = some Jtok.rbrace then some (.obj [], ts.tail)
      else
        match parseFields fuel ts with
        | some (fs, Jtok.rbrace :: ts1) => some (.obj fs, ts1)
        | _ => none
    | _ => none

/-- Parsing of a nonempty comma-separated element list. -/
def parseElems : Nat → List Jtok → Option (List Jval × List Jtok)
  | 0, _ => none
  | fuel + 1, ts =>
    match parseVal fuel ts with
    | none => none
    | some (v, ts1) =>
      if ts1.head? = some Jtok.comma then
        (parseElems fuel ts1.tail).map (fun r => (v :: r.1, r.2))
      else some ([v], ts1)

/-- Parsing of a nonempty comma-separated member list. -/
def parseFields : Nat → List Jtok → Option (List (String × Jval) × List Jtok)
  | 0, _ => none
  | fuel + 1, Jtok.jstr k :: Jtok.colon :: ts0 =>
    match parseVal fuel ts0 with
    | none => none
    | some (v, ts1) =>
      if ts1.head? = some Jtok.comma then
        (parseFields fuel ts1.tail).map (fun r => ((k, v) :: r.1, r.2))
      else some ([(k, v)], ts1)
  | _ + 1, _ => none

end

/-- Parsing of a whole document: the token count plus one is always enough
fuel, and the document must consume the whole file. -/
def parseTop (toks : List Jtok) : Option Jval :=
  match parseVal (toks.length + 1) toks with
  | some (v, []) => some v
  | _ => none

/-- The durable cache file: `none` models an absent file, otherwise its
token content. -/
abbrev CacheFileState := Option (List Jtok)

/-- Source `load_tank_cache` (tank_cache.py lines 8-15): the empty dict
when the file does not exist or reading/decoding raises, else the decoded
document. -/
def load_tank_cache (fs : CacheFileState) : Jval :=
  match fs with
  | none => .obj []
  | some toks =>
    match parseTop toks with
    | some v => v
    | none => .obj []

/-- Source `save_tank_cache` (tank_cache.py lines 17-20): serialise the
mapping and overwrite the file, whatever it held. -/
def save_tank_cache (m : List (String × Jval)) (_fs : CacheFileState) :
    CacheFileState :=
  some (render (.obj m))

/-! ## The standalone members cache (`app/api/auth.py`, lines 41-106)

The auth module keeps its own clan-members cache
(`data/members_cache.json`, TTL ten minutes) used by the registration
endpoint's `fetch_clan_members`.  `fetch_and_sync` never calls this
helper — it fetches the roster inline — but the helper itself is the
piece with the documented on-failure fallback, so it is modelled here. -/

/-- The decoded members-cache file: `ts` is the write timestamp, `members`
the account-id list (the shape `save_members_cache` writes; a file of a
different JSON shape would raise at the uncaught `cache.get` call). -/
structure MembersCache where
  ts : Int
  members : List Int
deriving DecidableEq, Repr

/-- Source `MEMBERS_CACHE_TTL = 60 * 10` (auth.py line 42): ten minutes. -/
def MEMBERS_CACHE_TTL : Int := 60 * 10

/-- Source `load_members_cache` (auth.py lines 51-59): the zero-timestamp
empty cache when the file does not exist or reading/decoding raises. -/
def load_members_cache (fs : Option MembersCache) : MembersCache :=
  match fs with
  | some c => c
  | none => ⟨0, []⟩

/-- Source `save_members_cache` (auth.py lines 62-68): write the new
content; a raised write is swallowed and leaves the file as it was. -/
def save_members_cache (d : MembersCache) (fs : Option MembersCache)
    (saveOk : Bool) : Option MembersCache :=
  if saveOk then some d else fs

/-- Oracle for one `fetch_clan_members` call: the decoded members payload
(each entry the value of its `account_id` key, `none` when the key is
absent — the comprehension drops those; ids in the payload are JSON
numbers, so `int(...)` does not raise on them), `none` for a raised
fetch; plus the clock read and the cache-write outcome. -/
structure MembersWorld where
  fetchResult : Option (List (Option Int))
  now : Int
  saveOk : Bool

/-- Source `fetch_clan_members` (auth.py lines 74-106): serve the cache
while it is fresh (strictly within the TTL) and nonempty; bail out to
`[]` when the application or clan id is unconfigured (empty string);
otherwise fetch, extract the ids, rewrite the cache and return them — and
on a raised fetch return the last-known cached list instead of
propagating. -/
def fetch_clan_members (appId clanId : String) (fs : Option MembersCache)
    (mw : MembersWorld) (forceRefresh : Bool) :
    List Int × Option MembersCache :=
  let cache := load_members_cache fs
  if !forceRefresh && decide (cache.ts + MEMBERS_CACHE_TTL > mw.now)
      && !cache.members.isEmpty then
    (cache.members, fs)
  else if appId = "" ∨ clanId = "" then ([], fs)
  else
    match mw.fetchResult with
    | some entries =>
      let ids := entries.filterMap (fun e => e)
      (ids, save_members_cache ⟨mw.now, ids⟩ fs mw.saveOk)
    | none => (cache.members, fs)

/-! ## Concrete scenarios

Small worlds used by the witnesses and counterexamples below. -/

/-- Roster of one account `42` holding a tier-6 tank (id `100`, cached
metadata name `Alpha`) and a tier-5 tank (id `200`, cached `Beta`). -/
def w42 : World where
  membersResult := some [⟨some 42, some "bob", none⟩]
  tanksResult := fun a =>
    if a = 42 then
      some [⟨some 100, some 10, some 4, some 1⟩, ⟨some 200, none, none, none⟩]
    else some []
  batchResult := fun _ => none
  dumpResult := none
  playerCommitOk := true
  deleteOk := fun _ => true
  finalCommitOk := true
  exitTime := 200

/-- The items the scenario world serves for account `42`. -/
def items42 : List TankItem :=
  [⟨some 100, some 10, some 4, some 1⟩, ⟨some 200, none, none, none⟩]

/-- Cache resolving tank `100` to tier 6 and tank `200` to tier 5. -/
def cache42 : Cache :=
  [("100", .obj (some 6) none (some "Alpha") none false),
   ("200", .obj (some 5) none (some "Beta") none false)]

/-- A database already holding one (stale) row for account `42`. -/
def db42 : DB :=
  ⟨[], [⟨42, 999, "Old", 8, 1, 1, none, 5⟩]⟩

/-- One account `1` owning tank `7`; the batched encyclopedia response
maps `7` to JSON `null`, and so does the full-catalog dump. -/
def w10 : World where
  membersResult := some [⟨some 1, some "a", none⟩]
  tanksResult := fun _ => some [⟨some 7, none, none, none⟩]
  batchResult := fun b => if b = [7] then some [("7", .null)] else none
  dumpResult := some [("7", .null)]
  playerCommitOk := true
  deleteOk := fun _ => true
  finalCommitOk := true
  exitTime := 200

/-- A healthy world whose roster fetch succeeds with one member. -/
def w5a : World where
  membersResult := some [⟨some 1, some "alice", none⟩]
  tanksResult := fun _ => some []
  batchResult := fun _ => none
  dumpResult := none
  playerCommitOk := true
  deleteOk := fun _ => true
  finalCommitOk := true
  exitTime := 200

/-- The same world after the clan-members fetch starts raising. -/
def w5b : World where
  membersResult := none
  tanksResult := fun _ => some []
  batchResult := fun _ => none
  dumpResult := none
  playerCommitOk := true
  deleteOk := fun _ => true
  finalCommitOk := true
  exitTime := 400

/-- A world in which every remote call and every persistence step raises. -/
def wFail : World where
  membersResult := none
  tanksResult := fun _ => none
  batchResult := fun _ => none
  dumpResult := none
  playerCommitOk := false
  deleteOk := fun _ => false
  finalCommitOk := false
  exitTime := 777

/-- A world whose roster fetch succeeds but returns no members. -/
def wEmpty : World where
  membersResult := some []
  tanksResult := fun _ => some []
  batchResult := fun _ => none
  dumpResult := none
  playerCommitOk := true
  deleteOk := fun _ => true
  finalCommitOk := true
  exitTime := 900

/-- Account `1` owns tanks `100` (already cached) and `7` (uncached, so
batched). -/
def w8 : World where
  membersResult := some [⟨some 1, some "a", none⟩]
  tanksResult := fun _ => some [⟨some 100, some 1, some 1, none⟩, ⟨some 7, none, none, none⟩]
  batchResult := fun b => if b = [7] then some [("7", .obj (some 5) none (some "Gamma") none false)] else none
  dumpResult := none
  playerCommitOk := true
  deleteOk := fun _ => true
  finalCommitOk := true
  exitTime := 200

/-- Cache for the short-circuit scenario: tank `100` is already resolved. -/
def cache8 : Cache :=
  [("100", .obj (some 6) none (some "Delta") none false)]

/-! ## Helper lemmas: rows and account filters -/

theorem buildRow_account {now : Int} {cache : Cache} {a : Int} {it : TankItem}
    {r : GarageTank} (h : buildRow now cache a it = some r) : r.account_id = a := by
  unfold buildRow at h
  split at h
  · exact absurd h (by simp)
  · split at h
    · exact absurd h (by simp)
    · split at h
      · exact absurd h (by simp)
      · split at h
        · injection h with h
          subst h
          rfl
        · exact absurd h (by simp)

theorem buildRows_account {now : Int} {cache : Cache} {a : Int}
    {items : List TankItem} : ∀ r ∈ buildRows now cache a items, r.account_id = a := by
  intro r hr
  simp only [buildRows, List.mem_filterMap] at hr
  obtain ⟨it, _, h⟩ := hr
  exact buildRow_account h

theorem tanksFor_append (a : Int) (l m : List GarageTank) :
    tanksFor a (l ++ m) = tanksFor a l ++ tanksFor a m := by
  simp [tanksFor, List.filter_append]

theorem tanksFor_buildRows_self {now : Int} {cache : Cache} {a : Int}
    {items : List TankItem} :
    tanksFor a (buildRows now cache a items) = buildRows now cache a items := by
  unfold tanksFor
  apply List.filter_eq_self.mpr
  intro r hr
  simpa using buildRows_account r hr

theorem tanksFor_buildRows_ne {now : Int} {cache : Cache} {a b : Int}
    {items : List TankItem} (h : a ≠ b) :
    tanksFor a (buildRows now cache b items) = [] := by
  unfold tanksFor
  rw [List.filter_eq_nil_iff]
  intro r hr
  have hb := buildRows_account r hr
  simp only [hb, decide_eq_true_eq]
  exact fun e => h e.symm

theorem tanksFor_filter_ne (a : Int) (ts : List GarageTank) :
    tanksFor a (ts.filter (fun r => r.account_id ≠ a)) = [] := by
  unfold tanksFor
  rw [List.filter_eq_nil_iff]
  intro r hr
  have hq := (List.mem_filter.mp hr).2
  simp only [decide_not, Bool.not_eq_eq_eq_not, Bool.not_true, decide_eq_false_iff_not] at hq
  simp [hq]

theorem purgeAccounts_nil (ts : List GarageTank) : purgeAccounts [] ts = ts := by
  unfold purgeAccounts
  apply List.filter_eq_self.mpr
  intro r _
  simp

theorem purgeAccounts_append (ks : List Int) (l m : List GarageTank) :
    purgeAccounts ks (l ++ m) = purgeAccounts ks l ++ purgeAccounts ks m := by
  simp [purgeAccounts, List.filter_append]

theorem purgeAccounts_cons (a : Int) (ks : List Int) (ts : List GarageTank) :
    purgeAccounts (a :: ks) ts
      = purgeAccounts ks (ts.filter (fun r => r.account_id ≠ a)) := by
  unfold purgeAccounts
  rw [List.filter_filter]
  apply List.filter_congr
  intro r _
  by_cases h : r.account_id = a <;> simp [h]

theorem purgeAccounts_of_disjoint {ks : List Int} {ts : List GarageTank}
    (h : ∀ r ∈ ts, r.account_id ∉ ks) : purgeAccounts ks ts = ts := by
  unfold purgeAccounts
  apply List.filter_eq_self.mpr
  intro r hr
  simpa using h r hr

theorem tanksFor_purgeAccounts {a : Int} {ks : List Int} {ts : List GarageTank}
    (h : a ∈ ks) : tanksFor a (purgeAccounts ks ts) = [] := by
  unfold tanksFor purgeAccounts
  rw [List.filter_eq_nil_iff]
  intro r hr
  have hq := (List.mem_filter.mp hr).2
  simp only [decide_eq_true_eq] at hq
  intro hc
  simp only [decide_eq_true_eq] at hc
  exact hq (hc ▸ h)

theorem tanksFor_allRows_nmem {now : Int} {cache : Cache} {a : Int} :
    ∀ {accMap : List (Int × List TankItem)}, a ∉ accMap.map Prod.fst →
      tanksFor a (allRows now cache accMap) = [] := by
  intro accMap
  induction accMap with
  | nil => intro _; simp [allRows, tanksFor]
  | cons hd rest ih =>
    intro h
    simp only [List.map_cons, List.mem_cons, not_or] at h
    rw [allRows, tanksFor_append, tanksFor_buildRows_ne h.1, ih h.2]
    rfl

theorem tanksFor_allRows {now : Int} {cache : Cache} :
    ∀ {accMap : List (Int × List TankItem)} {a : Int} {items : List TankItem},
      (a, items) ∈ accMap → (accMap.map Prod.fst).Nodup →
      tanksFor a (allRows now cache accMap) = buildRows now cache a items := by
  intro accMap
  induction accMap with
  | nil => intro a items h _; simp at h
  | cons hd rest ih =>
    intro a items h hnd
    rw [List.map_cons, List.nodup_cons] at hnd
    rcases List.mem_cons.mp h with heq | hmem
    · subst heq
      rw [allRows, tanksFor_append, tanksFor_buildRows_self,
        tanksFor_allRows_nmem hnd.1, List.append_nil]
    · have ha : a ∈ rest.map Prod.fst := List.mem_map_of_mem Prod.fst hmem
      have hne : a ≠ hd.1 := by
        intro e
        exact hnd.1 (e ▸ ha)
      rw [allRows, tanksFor_append, tanksFor_buildRows_ne hne, ih hmem hnd.2]
      rfl

/-! ## Helper lemmas: stage (e) session semantics -/

theorem stageEGo_append (now : Int) (w : World) (cache : Cache) (players : Players) :
    ∀ (l : List (Int × List TankItem)) (committed pending : List GarageTank),
      (∀ p ∈ l, w.deleteOk p.1 = true) →
      (l.map Prod.fst).Nodup →
      (∀ r ∈ pending, r.account_id ∉ l.map Prod.fst) →
      (stageEGo now w cache players committed pending l).1
          ++ (stageEGo now w cache players committed pending l).2.1
        = purgeAccounts (l.map Prod.fst) (committed ++ pending)
            ++ allRows now cache l := by
  intro l
  induction l with
  | nil =>
    intro committed pending _ _ _
    simp [stageEGo, allRows, purgeAccounts_nil]
  | cons hd rest ih =>
    intro committed pending hOk hnd hp
    obtain ⟨a, its⟩ := hd
    have hda : w.deleteOk a = true := hOk (a, its) (List.mem_cons_self _ _)
    rw [List.map_cons, List.nodup_cons] at hnd
    simp only [stageEGo, hda, if_true]
    have hrows : ∀ r ∈ buildRows now cache a its, r.account_id ∉ rest.map Prod.fst := by
      intro r hr
      rw [buildRows_account r hr]
      exact hnd.1
    rw [ih _ (buildRows now cache a its)
      (fun p hp => hOk p (List.mem_cons_of_mem _ hp)) hnd.2 hrows]
    rw [purgeAccounts_append, purgeAccounts_of_disjoint hrows]
    rw [List.map_cons, purgeAccounts_cons, allRows]
    rw [List.append_assoc]

theorem stageEGo_snapshot (now : Int) (w : World) (cache : Cache) (players : Players) :
    ∀ (l : List (Int × List TankItem)) (committed pending : List GarageTank)
      (a : Int) (items : List TankItem), (a, items) ∈ l →
      (∀ p ∈ l, w.deleteOk p.1 = true) →
      ∃ ts, Effect.dbCommit players ts
          ∈ (stageEGo now w cache players committed pending l).2.2
        ∧ tanksFor a ts = [] := by
  intro l
  induction l with
  | nil =>
    intro _ _ a items h _
    simp at h
  | cons hd rest ih =>
    intro committed pending a items h hOk
    obtain ⟨b, bits⟩ := hd
    have hdb : w.deleteOk b = true := hOk (b, bits) (List.mem_cons_self _ _)
    simp only [stageEGo, hdb, if_true]
    rcases List.mem_cons.mp h with heq | hmem
    · injection heq with h1 h2
      subst h1
      refine ⟨(committed ++ pending).filter (fun r => r.account_id ≠ a),
        List.mem_cons_self _ _, tanksFor_filter_ne a _⟩
    · obtain ⟨ts, hts, hempty⟩ := ih _ _ a items hmem
        (fun p hp => hOk p (List.mem_cons_of_mem _ hp))
      exact ⟨ts, List.mem_cons_of_mem _ hts, hempty⟩

theorem stageEGo_effects_shape (now : Int) (w : World) (cache : Cache)
    (players : Players) :
    ∀ (l : List (Int × List TankItem)) (committed pending : List GarageTank)
      (e : Effect), e ∈ (stageEGo now w cache players committed pending l).2.2 →
      ∃ ts, e = Effect.dbCommit players ts := by
  intro l
  induction l with
  | nil =>
    intro _ _ e h
    simp [stageEGo] at h
  | cons hd rest ih =>
    intro committed pending e h
    obtain ⟨b, bits⟩ := hd
    by_cases hdb : w.deleteOk b
    · simp only [stageEGo, hdb, if_true] at h
      rcases List.mem_cons.mp h with heq | hmem
      · exact ⟨_, heq⟩
      · exact ih _ _ e hmem
    · simp only [stageEGo, hdb, if_false] at h
      exact ih _ _ e h

theorem stageE_final (now : Int) (w : World) (cache : Cache) (players : Players)
    (tanks0 : List GarageTank) (accMap : List (Int × List TankItem))
    (hOk : ∀ p ∈ accMap, w.deleteOk p.1 = true)
    (hnd : (accMap.map Prod.fst).Nodup)
    (hFc : w.finalCommitOk = true) :
    (stageE now w cache players tanks0 accMap).1
      = purgeAccounts (accMap.map Prod.fst) tanks0 ++ allRows now cache accMap := by
  have h := stageEGo_append now w cache players accMap tanks0 [] hOk hnd (by simp)
  rw [List.append_nil] at h
  simp only [stageE, hFc, if_true]
  exact h

theorem stageE_snapshot (now : Int) (w : World) (cache : Cache) (players : Players)
    (tanks0 : List GarageTank) (accMap : List (Int × List TankItem))
    (a : Int) (items : List TankItem) (h : (a, items) ∈ accMap)
    (hOk : ∀ p ∈ accMap, w.deleteOk p.1 = true) :
    ∃ ts, Effect.dbCommit players ts ∈ (stageE now w cache players tanks0 accMap).2
      ∧ tanksFor a ts = [] := by
  obtain ⟨ts, hts, hempty⟩ := stageEGo_snapshot now w cache players accMap tanks0 [] a items h hOk
  unfold stageE
  by_cases hFc : w.finalCommitOk
  · exact ⟨ts, by simp only [hFc, if_true]; exact List.mem_append_left _ hts, hempty⟩
  · simp only [Bool.not_eq_true] at hFc
    exact ⟨ts, by simp only [hFc, Bool.false_eq_true, if_false]; exact hts, hempty⟩

theorem stageE_effects_shape (now : Int) (w : World) (cache : Cache)
    (players : Players) (tanks0 : List GarageTank)
    (accMap : List (Int × List TankItem)) (e : Effect)
    (h : e ∈ (stageE now w cache players tanks0 accMap).2) :
    ∃ ts, e = Effect.dbCommit players ts := by
  unfold stageE at h
  by_cases hFc : w.finalCommitOk
  · simp only [hFc, if_true] at h
    rcases List.mem_append.mp h with hmem | hmem
    · exact stageEGo_effects_shape now w cache players accMap tanks0 [] e hmem
    · exact ⟨_, List.mem_singleton.mp hmem⟩
  · simp only [Bool.not_eq_true] at hFc
    simp only [hFc, Bool.false_eq_true, if_false] at h
    exact stageEGo_effects_shape now w cache players accMap tanks0 [] e h

/-! ## Helper lemmas: dict keys -/

theorem keys_dictInsertI (m : List (Int × List TankItem)) (k : Int)
    (v : List TankItem) :
    (dictInsertI m k v).map Prod.fst
      = if (m.map Prod.fst).contains k then m.map Prod.fst
        else m.map Prod.fst ++ [k] := by
  unfold dictInsertI
  by_cases h : (m.map Prod.fst).contains k
  · rw [if_pos h, if_pos h, List.map_map]
    apply List.map_congr_left
    intro p _
    by_cases hp : p.1 = k <;> simp [hp]
  · rw [if_neg h, if_neg h, List.map_append]
    rfl

theorem nodup_keys_dictInsertI {m : List (Int × List TankItem)} {k : Int}
    {v : List TankItem} (h : (m.map Prod.fst).Nodup) :
    ((dictInsertI m k v).map Prod.fst).Nodup := by
  rw [keys_dictInsertI]
  by_cases hc : (m.map Prod.fst).contains k
  · rwa [if_pos hc]
  · rw [if_neg hc]
    have hk : k ∉ m.map Prod.fst := by
      intro hm
      exact hc (List.elem_iff.mpr hm)
    rw [List.nodup_append]
    refine ⟨h, List.nodup_singleton _, ?_⟩
    intro x hx hk1
    rw [List.mem_singleton] at hk1
    subst hk1
    exact hk hx

theorem nodup_keys_gatherMap (w : World) (accs : List Int) :
    ((gatherMap w accs).map Prod.fst).Nodup := by
  unfold gatherMap
  have h : ∀ (l : List Int) (m : List (Int × List TankItem)),
      (m.map Prod.fst).Nodup →
      ((l.foldl (fun m acc => dictInsertI m acc (fetchItems w acc)) m).map
        Prod.fst).Nodup := by
    intro l
    induction l with
    | nil => intro m hm; exact hm
    | cons x xs ih => intro m hm; exact ih _ (nodup_keys_dictInsertI hm)
  exact h accs [] (by simp)

/-! ## Helper lemmas: resolution stage -/

theorem dumpCond_rat (mAfter n : Nat) :
    dumpCond mAfter n
      = (decide (0 < mAfter)
          && decide ((mAfter : ℚ) > (1 / 4) * ((max 1 n : Nat) : ℚ))) := by
  unfold dumpCond
  congr 1
  rw [decide_eq_decide, gt_iff_lt, div_mul_eq_mul_div, one_mul,
    div_lt_iff₀ (by norm_num : (0 : ℚ) < 4)]
  rw [show ((mAfter : ℚ) * 4) = ((4 * mAfter : Nat) : ℚ) by push_cast; ring]
  exact_mod_cast Iff.rfl

theorem runBatches_effects_shape (w : World) :
    ∀ (bs : List (List Int)) (c : Cache) (e : Effect),
      e ∈ (runBatches w c bs).2 →
      (∃ b, b ∈ bs ∧ e = Effect.remote (.batchCall b))
        ∨ ∃ cc, e = Effect.cacheSave cc := by
  intro bs
  induction bs with
  | nil => intro c e h; simp [runBatches] at h
  | cons b rest ih =>
    intro c e h
    cases hbr : w.batchResult b with
    | some entries =>
      simp only [runBatches, hbr] at h
      rcases List.mem_cons.mp h with he | h2
      · exact Or.inl ⟨b, List.mem_cons_self _ _, he⟩
      · rcases List.mem_cons.mp h2 with he | h3
        · exact Or.inr ⟨_, he⟩
        · rcases ih _ e h3 with ⟨c1, hc1, he⟩ | hcc
          · exact Or.inl ⟨c1, List.mem_cons_of_mem _ hc1, he⟩
          · exact Or.inr hcc
    | none =>
      simp only [runBatches, hbr] at h
      rcases List.mem_cons.mp h with he | h2
      · exact Or.inl ⟨b, List.mem_cons_self _ _, he⟩
      · rcases ih _ e h2 with ⟨c1, hc1, he⟩ | hcc
        · exact Or.inl ⟨c1, List.mem_cons_of_mem _ hc1, he⟩
        · exact Or.inr hcc

theorem runBatches_batch_mem {w : World} {bs : List (List Int)} {c : Cache}
    {ids : List Int}
    (h : Effect.remote (.batchCall ids) ∈ (runBatches w c bs).2) : ids ∈ bs := by
  rcases runBatches_effects_shape w bs c _ h with ⟨b, hb, he⟩ | ⟨cc, he⟩
  · injection he with he
    injection he with he
    exact he ▸ hb
  · exact absurd he (by simp)

theorem runBatches_countP_dump (w : World) (bs : List (List Int)) (c : Cache) :
    ((runBatches w c bs).2.countP isDumpEffect) = 0 := by
  rw [List.countP_eq_zero]
  intro e he
  rcases runBatches_effects_shape w bs c e he with ⟨b, _, he⟩ | ⟨cc, he⟩ <;>
    subst he <;> simp [isDumpEffect]

theorem chunksAux_subset (B : Nat) :
    ∀ (fuel : Nat) (l c : List Int), c ∈ chunksAux B fuel l → ∀ x ∈ c, x ∈ l := by
  intro fuel
  induction fuel with
  | zero => intro l c h; simp [chunksAux] at h
  | succ fuel ih =>
    intro l c h x hx
    cases l with
    | nil => simp [chunksAux] at h
    | cons y ys =>
      simp only [chunksAux] at h
      rcases List.mem_cons.mp h with hc | hc
      · subst hc
        exact List.take_subset _ _ hx
      · exact List.drop_subset _ _ (ih _ c hc x hx)

theorem chunks_subset {B : Nat} {l c : List Int} (h : c ∈ chunks B l) :
    ∀ x ∈ c, x ∈ l :=
  chunksAux_subset B l.length l c h

theorem resolveStage_effects_sub {cfg : Config} {w : World} {cache : Cache}
    {unique : List Int} {e : Effect}
    (h : e ∈ (resolveStage cfg w cache unique).2) :
    e ∈ (runBatches w cache (chunks cfg.encyclopediaBatch (missingOf cache unique))).2
      ∨ e = Effect.remote .dumpCall ∨ ∃ cc, e = Effect.cacheSave cc := by
  simp only [resolveStage] at h
  by_cases hm : (missingOf cache unique).isEmpty = true
  · rw [if_pos hm] at h
    simp at h
  · rw [if_neg hm] at h
    by_cases hd : dumpCond (missingOf (runBatches w cache
        (chunks cfg.encyclopediaBatch (missingOf cache unique))).1 unique).length
        unique.length = true
    · rw [if_pos hd] at h
      cases hdr : w.dumpResult with
      | some entries =>
        rw [hdr] at h
        simp only [] at h
        rcases List.mem_append.mp h with h1 | h1
        · exact Or.inl h1
        · rcases List.mem_cons.mp h1 with he | h2
          · exact Or.inr (Or.inl he)
          · exact Or.inr (Or.inr ⟨_, List.mem_singleton.mp h2⟩)
      | none =>
        rw [hdr] at h
        rcases List.mem_append.mp h with h1 | h1
        · exact Or.inl h1
        · exact Or.inr (Or.inl (List.mem_singleton.mp h1))
    · rw [if_neg hd] at h
      exact Or.inl h

theorem resolveStage_batch_mem {cfg : Config} {w : World} {cache : Cache}
    {unique : List Int} {ids : List Int}
    (h : Effect.remote (.batchCall ids) ∈ (resolveStage cfg w cache unique).2) :
    ids ∈ chunks cfg.encyclopediaBatch (missingOf cache unique) := by
  rcases resolveStage_effects_sub h with h1 | h1 | ⟨cc, h1⟩
  · exact runBatches_batch_mem h1
  · exact absurd h1 (by simp)
  · exact absurd h1 (by simp)

theorem resolveStage_countDump (cfg : Config) (w : World) (cache : Cache)
    (unique : List Int) :
    (resolveStage cfg w cache unique).2.countP isDumpEffect
      = if (missingOf cache unique).isEmpty then 0
        else if dumpCond (missingOf (runBatches w cache
            (chunks cfg.encyclopediaBatch (missingOf cache unique))).1 unique).length
            unique.length then 1 else 0 := by
  simp only [resolveStage]
  by_cases hm : (missingOf cache unique).isEmpty = true
  · rw [if_pos hm, if_pos hm]
    simp
  · rw [if_neg hm, if_neg hm]
    by_cases hd : dumpCond (missingOf (runBatches w cache
        (chunks cfg.encyclopediaBatch (missingOf cache unique))).1 unique).length
        unique.length = true
    · rw [if_pos hd, if_pos hd]
      cases hdr : w.dumpResult with
      | some entries =>
        simp [List.countP_append, List.countP_cons, runBatches_countP_dump,
          isDumpEffect]
      | none =>
        simp [List.countP_append, List.countP_cons, runBatches_countP_dump,
          isDumpEffect]
    · rw [if_neg hd, if_neg hd]
      exact runBatches_countP_dump _ _ _

/-! ## Helper lemmas: cache lookups -/

theorem find?_map_update (c : Cache) (k : String) (v : MetaVal) (q : String)
    (h : q ≠ k) :
    ((c.map (fun p => if p.1 = k then (k, v) else p)).find? (fun p => p.1 = q))
      = c.find? (fun p => p.1 = q) := by
  induction c with
  | nil => rfl
  | cons p rest ih =>
    by_cases hp : p.1 = k
    · have hq1 : ¬ ((k, v).1 = q) := fun e => h e.symm
      have hq2 : ¬ (p.1 = q) := fun e => h (hp ▸ e.symm)
      simp only [List.map_cons, if_pos hp]
      rw [List.find?_cons_of_neg _ (by simpa using hq1),
        List.find?_cons_of_neg _ (by simpa using hq2)]
      exact ih
    · simp only [List.map_cons, if_neg hp]
      by_cases hq : p.1 = q
      · rw [List.find?_cons_of_pos _ (by simpa using hq),
          List.find?_cons_of_pos _ (by simpa using hq)]
      · rw [List.find?_cons_of_neg _ (by simpa using hq),
          List.find?_cons_of_neg _ (by simpa using hq)]
        exact ih

theorem lookupS_dictInsertS_ne {c : Cache} {k : String} {v : MetaVal} {q : String}
    (h : q ≠ k) : lookupS (dictInsertS c k v) q = lookupS c q := by
  unfold dictInsertS lookupS
  by_cases hc : (c.map Prod.fst).contains k
  · rw [if_pos hc, find?_map_update c k v q h]
  · rw [if_neg hc, List.find?_append]
    have : ([(k, v)].find? (fun p => p.1 = q)) = none := by
      rw [List.find?_cons_of_neg _ (by simpa using fun e => h e.symm)]
      rfl
    rw [this]
    cases c.find? (fun p => p.1 = q) <;> rfl

theorem applyBatchEntries_lookup_falsy :
    ∀ (entries : List (String × MetaVal)) (c : Cache) (k : String),
      (∀ v, (k, v) ∈ entries → v.truthy = false) →
      lookupS (applyBatchEntries c entries) k = lookupS c k := by
  intro entries
  induction entries with
  | nil => intro c k _; rfl
  | cons kv rest ih =>
    intro c k hf
    obtain ⟨k1, v1⟩ := kv
    simp only [applyBatchEntries, List.foldl_cons]
    by_cases ht : v1.truthy = true
    · have hk : k ≠ k1 := by
        intro e
        subst e
        exact absurd (hf v1 (List.mem_cons_self _ _)) (by simp [ht])
      rw [if_pos ht]
      exact (ih (dictInsertS c k1 v1) k
          (fun v hv => hf v (List.mem_cons_of_mem _ hv))).trans
        (lookupS_dictInsertS_ne hk)
    · rw [if_neg ht]
      exact ih c k (fun v hv => hf v (List.mem_cons_of_mem _ hv))

theorem mem_missingOf {cache : Cache} {unique : List Int} {tid : Int}
    (hu : tid ∈ unique) (hn : lookupS cache (toString tid) = none) :
    tid ∈ missingOf cache unique := by
  unfold missingOf
  exact List.mem_filter.mpr ⟨hu, by simp [hn]⟩

theorem not_mem_missingOf {cache : Cache} {unique : List Int} {tid : Int}
    (hs : (lookupS cache (toString tid)).isSome = true) :
    tid ∉ missingOf cache unique := by
  intro h
  have := (List.mem_filter.mp h).2
  rw [Option.isNone_iff_eq_none.mp this] at hs
  simp at hs

/-! ## Helper lemmas: the coordinator -/

theorem fetchAndSync_entered {cfg : Config} {now : Int} {w : World}
    {st : SyncState} {db : DB} {cache : Cache} (h1 : st.running = false)
    (h2 : ¬ (now - st.lastSyncTs < cfg.minSyncInterval)) :
    fetchAndSync cfg now w st db cache
      = ⟨⟨false, w.exitTime⟩, (runBody cfg now w db cache).1,
          (runBody cfg now w db cache).2.1, (runBody cfg now w db cache).2.2⟩ := by
  simp only [fetchAndSync, h1, Bool.false_eq_true, if_false, if_neg h2]

theorem runBody_main {cfg : Config} {now : Int} {w : World} {db : DB}
    {cache : Cache} (h3 : (syncMembers w).isEmpty = false)
    (h4 : w.playerCommitOk = true) :
    runBody cfg now w db cache
      = (⟨upsertMembers db.players (syncMembers w),
            (stageE now w (syncFinalCache cfg w cache)
              (upsertMembers db.players (syncMembers w)) db.tanks
              (syncAccMap w)).1⟩,
          syncFinalCache cfg w cache,
          Effect.remote .membersCall
            :: Effect.dbCommit (upsertMembers db.players (syncMembers w)) db.tanks
            :: ((parsedAccounts (syncMembers w)).map
                  (fun a => Effect.remote (.tanksCall a))
                ++ (resolveStage cfg w cache (syncUnique w)).2
                ++ (stageE now w (syncFinalCache cfg w cache)
                      (upsertMembers db.players (syncMembers w)) db.tanks
                      (syncAccMap w)).2)) := by
  simp only [runBody, h3, Bool.false_eq_true, if_false, h4, if_true,
    syncAccMap, syncUnique, syncFinalCache]

theorem runBody_abort_empty {cfg : Config} {now : Int} {w : World} {db : DB}
    {cache : Cache} (h3 : (syncMembers w).isEmpty = true) :
    runBody cfg now w db cache = (db, cache, [Effect.remote .membersCall]) := by
  simp only [runBody, h3, if_true]

theorem runBody_abort_playerCommit {cfg : Config} {now : Int} {w : World}
    {db : DB} {cache : Cache} (h3 : (syncMembers w).isEmpty = false)
    (h4 : w.playerCommitOk = false) :
    runBody cfg now w db cache = (db, cache, [Effect.remote .membersCall]) := by
  simp only [runBody, h3, Bool.false_eq_true, if_false, h4]

theorem countP_tanksCalls_dump (accs : List Int) :
    ((accs.map (fun a => Effect.remote (.tanksCall a))).countP isDumpEffect) = 0 := by
  rw [List.countP_eq_zero]
  intro e he
  obtain ⟨a, _, rfl⟩ := List.mem_map.mp he
  simp [isDumpEffect]

theorem stageE_countP_dump (now : Int) (w : World) (cache : Cache)
    (players : Players) (tanks0 : List GarageTank)
    (accMap : List (Int × List TankItem)) :
    ((stageE now w cache players tanks0 accMap).2.countP isDumpEffect) = 0 := by
  rw [List.countP_eq_zero]
  intro e he
  obtain ⟨ts, rfl⟩ := stageE_effects_shape now w cache players tanks0 accMap e he
  simp [isDumpEffect]

/-! ## Helper lemmas: JSON round trip -/

theorem render_cons (v : Jval) : ∃ t ts, render v = t :: ts
    ∧ t ≠ Jtok.rbrack ∧ t ≠ Jtok.rbrace ∧ t ≠ Jtok.comma ∧ t ≠ Jtok.colon := by
  cases v with
  | null => exact ⟨_, _, rfl, by simp, by simp, by simp, by simp⟩
  | bool b => exact ⟨_, _, rfl, by simp, by simp, by simp, by simp⟩
  | num n => exact ⟨_, _, rfl, by simp, by simp, by simp, by simp⟩
  | str s => exact ⟨_, _, rfl, by simp, by simp, by simp, by simp⟩
  | arr es => exact ⟨_, _, rfl, by simp, by simp, by simp, by simp⟩
  | obj fs => exact ⟨_, _, rfl, by simp, by simp, by simp, by simp⟩

theorem render_length_pos (v : Jval) : 0 < (render v).length := by
  obtain ⟨t, ts, he, -⟩ := render_cons v
  simp [he]

theorem renderElems_cons_append (e : Jval) (es : List Jval) :
    ∃ ts, renderElems (e :: es) = render e ++ ts := by
  cases es with
  | nil => exact ⟨[], by simp [renderElems]⟩
  | cons x xs => exact ⟨Jtok.comma :: renderElems (x :: xs), rfl⟩

theorem renderFields_cons_append (k : String) (v : Jval)
    (fs : List (String × Jval)) :
    ∃ ts, renderFields ((k, v) :: fs)
      = Jtok.jstr k :: Jtok.colon :: (render v ++ ts) := by
  cases fs with
  | nil => exact ⟨[], by simp [renderFields]⟩
  | cons x xs => exact ⟨Jtok.comma :: renderFields (x :: xs), by simp [renderFields]⟩

theorem parse_render_all : ∀ fuel : Nat,
    (∀ (v : Jval) (rest : List Jtok), (render v).length ≤ fuel →
      parseVal fuel (render v ++ rest) = some (v, rest)) ∧
    (∀ (es : List Jval) (rest : List Jtok), es ≠ [] →
      (renderElems es).length < fuel → rest.head? ≠ some Jtok.comma →
      parseElems fuel (renderElems es ++ rest) = some (es, rest)) ∧
    (∀ (fs : List (String × Jval)) (rest : List Jtok), fs ≠ [] →
      (renderFields fs).length < fuel → rest.head? ≠ some Jtok.comma →
      parseFields fuel (renderFields fs ++ rest) = some (fs, rest)) := by
  intro fuel
  induction fuel with
  | zero =>
    refine ⟨fun v rest hv => ?_, fun es rest _ he _ => ?_, fun fs rest _ hf _ => ?_⟩
    · have := render_length_pos v
      omega
    · exact absurd he (by omega)
    · exact absurd hf (by omega)
  | succ f ih =>
    obtain ⟨ihP, ihE, ihF⟩ := ih
    refine ⟨?_, ?_, ?_⟩
    · -- values
      intro v rest hv
      cases v with
      | null => simp [render, parseVal]
      | bool b => simp [render, parseVal]
      | num n => simp [render, parseVal]
      | str s => simp [render, parseVal]
      | arr es =>
        cases es with
        | nil => simp [render, renderElems, parseVal]
        | cons e es1 =>
          obtain ⟨tl, hel⟩ := renderElems_cons_append e es1
          obtain ⟨t, ts0, hec, hne1, hne2, hne3, hne4⟩ := render_cons e
          have hshape : render (Jval.arr (e :: es1)) ++ rest
              = Jtok.lbrack :: (renderElems (e :: es1) ++ (Jtok.rbrack :: rest)) := by
            simp [render]
          rw [hshape]
          have hhead : (renderElems (e :: es1) ++ (Jtok.rbrack :: rest)).head?
              ≠ some Jtok.rbrack := by
            rw [hel, hec]
            simp [hne1]
          have hlen : (renderElems (e :: es1)).length < f := by
            have : (render (Jval.arr (e :: es1))).length
                = (renderElems (e :: es1)).length + 2 := by
              simp [render]
            omega
          have hE := ihE (e :: es1) (Jtok.rbrack :: rest) (by simp) hlen (by simp)
          simp only [parseVal, if_neg hhead, hE]
      | obj fs =>
        cases fs with
        | nil => simp [render, renderFields, parseVal]
        | cons kv fs1 =>
          obtain ⟨k, v1⟩ := kv
          obtain ⟨tl, hfl⟩ := renderFields_cons_append k v1 fs1
          have hshape : render (Jval.obj ((k, v1) :: fs1)) ++ rest
              = Jtok.lbrace :: (renderFields ((k, v1) :: fs1) ++ (Jtok.rbrace :: rest)) := by
            simp [render]
          rw [hshape]
          have hhead : (renderFields ((k, v1) :: fs1) ++ (Jtok.rbrace :: rest)).head?
              ≠ some Jtok.rbrace := by
            rw [hfl]
            simp
          have hlen : (renderFields ((k, v1) :: fs1)).length < f := by
            have : (render (Jval.obj ((k, v1) :: fs1))).length
                = (renderFields ((k, v1) :: fs1)).length + 2 := by
              simp [render]
            omega
          have hF := ihF ((k, v1) :: fs1) (Jtok.rbrace :: rest) (by simp) hlen (by simp)
          simp only [parseVal, if_neg hhead, hF]
    · -- element lists
      intro es rest hne hlen hc
      cases es with
      | nil => exact absurd rfl hne
      | cons e es1 =>
        cases es1 with
        | nil =>
          have h1 : (render e).length ≤ f := by
            have : renderElems [e] = render e := by simp [renderElems]
            rw [this] at hlen
            omega
          have hP := ihP e rest h1
          have : renderElems [e] = render e := by simp [renderElems]
          rw [this]
          simp only [parseElems, List.append_eq, hP, if_neg hc]
        | cons x xs =>
          have hsplit : renderElems (e :: x :: xs)
              = render e ++ Jtok.comma :: renderElems (x :: xs) := rfl
          have hlen1 : (render e).length ≤ f := by
            rw [hsplit, List.length_append] at hlen
            simp at hlen
            omega
          have hlen2 : (renderElems (x :: xs)).length < f := by
            rw [hsplit, List.length_append] at hlen
            have := render_length_pos e
            simp at hlen
            omega
          have hP := ihP e (Jtok.comma :: (renderElems (x :: xs) ++ rest)) hlen1
          have hE := ihE (x :: xs) rest (by simp) hlen2 hc
          rw [hsplit]
          have hshape : (render e ++ Jtok.comma :: renderElems (x :: xs)) ++ rest
              = render e ++ (Jtok.comma :: (renderElems (x :: xs) ++ rest)) := by
            simp
          rw [hshape]
          simp only [parseElems, List.append_eq, hP, List.head?_cons, if_pos rfl,
            List.tail_cons, hE, Option.map_some]
          rfl
    · -- field lists
      intro fs rest hne hlen hc
      cases fs with
      | nil => exact absurd rfl hne
      | cons kv fs1 =>
        obtain ⟨k, v1⟩ := kv
        cases fs1 with
        | nil =>
          have hr : renderFields [(k, v1)] = Jtok.jstr k :: Jtok.colon :: render v1 := by
            simp [renderFields]
          have h1 : (render v1).length ≤ f := by
            rw [hr] at hlen
            simp at hlen
            omega
          have hP := ihP v1 rest h1
          rw [hr]
          simp only [List.cons_append, parseFields, List.append_eq, hP, if_neg hc]
        | cons x xs =>
          have hsplit : renderFields ((k, v1) :: x :: xs)
              = (Jtok.jstr k :: Jtok.colon :: render v1)
                ++ Jtok.comma :: renderFields (x :: xs) := rfl
          have hlen1 : (render v1).length ≤ f := by
            rw [hsplit, List.length_append] at hlen
            simp at hlen
            omega
          have hlen2 : (renderFields (x :: xs)).length < f := by
            rw [hsplit, List.length_append] at hlen
            have := render_length_pos v1
            simp at hlen
            omega
          have hP := ihP v1 (Jtok.comma :: (renderFields (x :: xs) ++ rest)) hlen1
          have hF := ihF (x :: xs) rest (by simp) hlen2 hc
          rw [hsplit]
          have hshape : ((Jtok.jstr k :: Jtok.colon :: render v1)
                ++ Jtok.comma :: renderFields (x :: xs)) ++ rest
              = Jtok.jstr k :: Jtok.colon
                :: (render v1 ++ (Jtok.comma :: (renderFields (x :: xs) ++ rest))) := by
            simp
          rw [hshape]
          simp only [parseFields, List.append_eq, hP, List.head?_cons, if_pos rfl,
            List.tail_cons, hF, Option.map_some]
          rfl

theorem parseTop_render (v : Jval) : parseTop (render v) = some v := by
  unfold parseTop
  have h := (parse_render_all ((render v).length + 1)).1 v [] (by omega)
  rw [List.append_nil] at h
  rw [h]

/-- Guard helper: both entry-guard rejections are complete no-ops. -/
theorem fetchAndSync_noop {cfg : Config} {now : Int} {w : World} {st : SyncState}
    {db : DB} {cache : Cache}
    (h : st.running = true ∨ now - st.lastSyncTs < cfg.minSyncInterval) :
    fetchAndSync cfg now w st db cache = ⟨st, db, cache, []⟩ := by
  rcases h with h | h
  · simp [fetchAndSync, h]
  · by_cases hr : st.running = true
    · simp [fetchAndSync, hr]
    · simp only [Bool.not_eq_true] at hr
      simp [fetchAndSync, hr, h]

/-- Main-path helper: the row set of a processed account after the final
commit is exactly the freshly built row set. -/
theorem runMain_tanksFor {cfg : Config} {now : Int} {w : World} {db : DB}
    {cache : Cache} {a : Int} {items : List TankItem}
    (h5 : ∀ p ∈ syncAccMap w, w.deleteOk p.1 = true)
    (h6 : w.finalCommitOk = true)
    (h7 : (a, items) ∈ syncAccMap w) :
    tanksFor a (stageE now w (syncFinalCache cfg w cache)
        (upsertMembers db.players (syncMembers w)) db.tanks (syncAccMap w)).1
      = buildRows now (syncFinalCache cfg w cache) a items := by
  have hnd : ((syncAccMap w).map Prod.fst).Nodup := nodup_keys_gatherMap w _
  rw [stageE_final _ _ _ _ _ _ h5 hnd h6]
  rw [tanksFor_append, tanksFor_purgeAccounts (List.mem_map_of_mem Prod.fst h7),
    tanksFor_allRows h7 hnd]
  rfl

/-! ## Claims -/

/-- C3: the Idle→Running entry guard enforces mutual exclusion and
debounce: an invocation arriving while another run is Running, or within
`minimum_interval` (default 45) seconds of the previous completed run's
timestamp, is a complete no-op — no remote calls, no persistence writes,
no state change; in this sequential embedding of the single-process
coordinator, the Running rejection is exactly what makes at most one
pipeline execute at a time. -/
theorem sync_guard_noop (cfg : Config) (now : Int) (w : World) (st : SyncState)
    (db : DB) (cache : Cache)
    (h : st.running = true ∨ now - st.lastSyncTs < cfg.minSyncInterval) :
    fetchAndSync cfg now w st db cache = ⟨st, db, cache, []⟩ :=
  fetchAndSync_noop h

theorem sync_guard_noop_witness :
    fetchAndSync {} 1000 w42 ⟨true, 0⟩ db42 cache42
      = ⟨⟨true, 0⟩, db42, cache42, []⟩ :=
  sync_guard_noop {} 1000 w42 ⟨true, 0⟩ db42 cache42 (Or.inl rfl)

/-- C4: on every exit of an entered run — whatever the world does: normal
completion, empty-roster abort, or any raised remote/persistence step —
the `finally:` block stamps the last-run timestamp and clears the Running
flag, so the final coordinator state is always `⟨false, exitTime⟩`. -/
theorem sync_exit_clears_state (cfg : Config) (now : Int) (w : World)
    (st : SyncState) (db : DB) (cache : Cache) (h1 : st.running = false)
    (h2 : ¬ (now - st.lastSyncTs < cfg.minSyncInterval)) :
    (fetchAndSync cfg now w st db cache).state = ⟨false, w.exitTime⟩ := by
  rw [fetchAndSync_entered h1 h2]

theorem sync_exit_clears_state_witness :
    (fetchAndSync {} 100 wFail ⟨false, 0⟩ ⟨[], []⟩ []).state = ⟨false, 777⟩ :=
  sync_exit_clears_state {} 100 wFail ⟨false, 0⟩ ⟨[], []⟩ [] rfl (by decide)

/-- C7: a roster fetch that yields an empty members list makes the run
exit right after stage (a): the returned database and cache are the input
ones (no Player and no GarageTank row inserted, updated or deleted), the
only effect is the single roster request, the Running flag is cleared and
the last-sync timestamp stamped. -/
theorem empty_roster_abort (cfg : Config) (now : Int) (w : World)
    (st : SyncState) (db : DB) (cache : Cache) (h1 : st.running = false)
    (h2 : ¬ (now - st.lastSyncTs < cfg.minSyncInterval))
    (h3 : w.membersResult = some []) :
    fetchAndSync cfg now w st db cache
      = ⟨⟨false, w.exitTime⟩, db, cache, [Effect.remote .membersCall]⟩ := by
  rw [fetchAndSync_entered h1 h2, runBody_abort_empty (by simp [syncMembers, h3])]

theorem empty_roster_abort_witness :
    fetchAndSync {} 100 wEmpty ⟨false, 0⟩ db42 cache42
      = ⟨⟨false, 900⟩, db42, cache42, [Effect.remote .membersCall]⟩ :=
  empty_roster_abort {} 100 wEmpty ⟨false, 0⟩ db42 cache42 rfl (by decide) rfl

/-- C5 (amended): when the clan-members fetch fails, the standalone
helper `fetch_clan_members` (auth.py) does not propagate the error but
returns the last-known cached members list, held in a TTL cache whose
default TTL is ten minutes (`MEMBERS_CACHE_TTL = 600`).  The sync,
however, never calls this helper: `fetch_and_sync` performs its own
inline roster fetch, treats a failure as an empty members list, and
aborts the run — it does not continue with the cached list. -/
theorem members_failure_cache_and_abort (appId clanId : String)
    (fs : Option MembersCache) (mw : MembersWorld) (cfg : Config) (now : Int)
    (w : World) (st : SyncState) (db : DB) (cache : Cache)
    (ha : appId ≠ "") (hb : clanId ≠ "")
    (hm : mw.fetchResult = none)
    (h1 : st.running = false)
    (h2 : ¬ (now - st.lastSyncTs < cfg.minSyncInterval))
    (h3 : w.membersResult = none) :
    (fetch_clan_members appId clanId fs mw false).1
        = (load_members_cache fs).members
      ∧ fetchAndSync cfg now w st db cache
        = ⟨⟨false, w.exitTime⟩, db, cache, [Effect.remote .membersCall]⟩
      ∧ MEMBERS_CACHE_TTL = 600 := by
  refine ⟨?_, ?_, by decide⟩
  · unfold fetch_clan_members
    by_cases hfresh : (!false
        && decide ((load_members_cache fs).ts + MEMBERS_CACHE_TTL > mw.now)
        && !(load_members_cache fs).members.isEmpty) = true
    · rw [if_pos hfresh]
    · rw [if_neg hfresh, if_neg (not_or.mpr ⟨ha, hb⟩), hm]
  · rw [fetchAndSync_entered h1 h2,
      runBody_abort_empty (by simp [syncMembers, h3])]

theorem members_failure_cache_and_abort_witness :
    ((fetch_clan_members "app" "clan" (some ⟨50, [1, 2]⟩) ⟨none, 700, true⟩
          false).1
        = (load_members_cache (some ⟨50, [1, 2]⟩)).members
      ∧ fetchAndSync {} 300 w5b ⟨false, 0⟩ ⟨[(1, "alice")], []⟩ []
        = ⟨⟨false, 400⟩, ⟨[(1, "alice")], []⟩, [], [Effect.remote .membersCall]⟩
      ∧ MEMBERS_CACHE_TTL = 600)
      ∧ (fetch_clan_members "app" "clan" (some ⟨50, [1, 2]⟩) ⟨none, 700, true⟩
          false).1 = [1, 2] :=
  ⟨members_failure_cache_and_abort "app" "clan" (some ⟨50, [1, 2]⟩)
      ⟨none, 700, true⟩ {} 300 w5b ⟨false, 0⟩ ⟨[(1, "alice")], []⟩ []
      (by decide) (by decide) rfl rfl (by decide) rfl, by decide⟩

/-- C5 (counterexample): a run whose roster fetch succeeds with member
`(1, alice)` is followed by a run whose roster fetch fails.  The claim
says the second run returns the last-known cached members list and
continues the sync with it; instead its complete effect trace is the
single failed roster request — no inventory fetch for account 1, no
player upsert, no write of any kind — and the database is exactly the
one the first run left.  (The auth module's `fetch_clan_members` TTL
cache does behave as the claim describes, but the sync never consults
it.) -/
theorem c5_counterexample :
    (fetchAndSync {} 100 w5a ⟨false, 0⟩ ⟨[], []⟩ []).db.players = [(1, "alice")]
      ∧ (fetchAndSync {} 300 w5b
            (fetchAndSync {} 100 w5a ⟨false, 0⟩ ⟨[], []⟩ []).state
            (fetchAndSync {} 100 w5a ⟨false, 0⟩ ⟨[], []⟩ []).db
            (fetchAndSync {} 100 w5a ⟨false, 0⟩ ⟨[], []⟩ []).cache).effects
          = [Effect.remote .membersCall]
      ∧ (fetchAndSync {} 300 w5b
            (fetchAndSync {} 100 w5a ⟨false, 0⟩ ⟨[], []⟩ []).state
            (fetchAndSync {} 100 w5a ⟨false, 0⟩ ⟨[], []⟩ []).db
            (fetchAndSync {} 100 w5a ⟨false, 0⟩ ⟨[], []⟩ []).cache).db
          = (fetchAndSync {} 100 w5a ⟨false, 0⟩ ⟨[], []⟩ []).db := by
  refine ⟨?_, ?_, ?_⟩ <;> decide

/-- C2: for every account present in a run that completes with no
persistence failure, the GarageTank row set of that account after the
sync is exactly the row set built from that run's fetched inventory,
resolved against the run's final cache and filtered to tiers 6/8/10 —
no rows left over from before, no extra rows. -/
theorem sync_replace_law (cfg : Config) (now : Int) (w : World) (st : SyncState)
    (db : DB) (cache : Cache) (a : Int) (items : List TankItem)
    (h1 : st.running = false)
    (h2 : ¬ (now - st.lastSyncTs < cfg.minSyncInterval))
    (h3 : (syncMembers w).isEmpty = false)
    (h4 : w.playerCommitOk = true)
    (h5 : ∀ p ∈ syncAccMap w, w.deleteOk p.1 = true)
    (h6 : w.finalCommitOk = true)
    (h7 : (a, items) ∈ syncAccMap w) :
    tanksFor a (fetchAndSync cfg now w st db cache).db.tanks
      = buildRows now (syncFinalCache cfg w cache) a items := by
  rw [fetchAndSync_entered h1 h2]
  show tanksFor a (runBody cfg now w db cache).1.tanks = _
  rw [runBody_main h3 h4]
  exact runMain_tanksFor h5 h6 h7

theorem sync_replace_law_witness :
    tanksFor 42 (fetchAndSync {} 100 w42 ⟨false, 0⟩ db42 cache42).db.tanks
        = buildRows 100 (syncFinalCache {} w42 cache42) 42 items42
      ∧ buildRows 100 (syncFinalCache {} w42 cache42) 42 items42
        = [⟨42, 100, "Alpha", 6, 10, 4, some 1, 100⟩] :=
  ⟨sync_replace_law {} 100 w42 ⟨false, 0⟩ db42 cache42 42 items42 rfl (by decide)
      (by decide) rfl (by decide) rfl (by decide), by decide⟩

/-- C1 (amended): the per-account replace of stage (e) is not one
transaction.  The delete of an account's rows is committed on its own
(flushing only earlier accounts' pending inserts), so during the run a
committed database snapshot in which the account has no rows at all is
visible; the account's new rows are published only by a later commit, and
once the final commit succeeds the account's row set is exactly the
freshly built one. -/
theorem stage_e_commit_granularity (cfg : Config) (now : Int) (w : World)
    (st : SyncState) (db : DB) (cache : Cache) (a : Int) (items : List TankItem)
    (h1 : st.running = false)
    (h2 : ¬ (now - st.lastSyncTs < cfg.minSyncInterval))
    (h3 : (syncMembers w).isEmpty = false)
    (h4 : w.playerCommitOk = true)
    (h5 : ∀ p ∈ syncAccMap w, w.deleteOk p.1 = true)
    (h6 : w.finalCommitOk = true)
    (h7 : (a, items) ∈ syncAccMap w) :
    (∃ ts, Effect.dbCommit (upsertMembers db.players (syncMembers w)) ts
        ∈ (fetchAndSync cfg now w st db cache).effects ∧ tanksFor a ts = [])
      ∧ tanksFor a (fetchAndSync cfg now w st db cache).db.tanks
        = buildRows now (syncFinalCache cfg w cache) a items := by
  rw [fetchAndSync_entered h1 h2]
  constructor
  · show ∃ ts, Effect.dbCommit _ ts ∈ (runBody cfg now w db cache).2.2 ∧ _
    rw [runBody_main h3 h4]
    obtain ⟨ts, hts, hempty⟩ := stageE_snapshot now w (syncFinalCache cfg w cache)
      (upsertMembers db.players (syncMembers w)) db.tanks (syncAccMap w) a items
      h7 h5
    refine ⟨ts, ?_, hempty⟩
    exact List.mem_cons_of_mem _ (List.mem_cons_of_mem _
      (List.mem_append_right _ hts))
  · show tanksFor a (runBody cfg now w db cache).1.tanks = _
    rw [runBody_main h3 h4]
    exact runMain_tanksFor h5 h6 h7

theorem stage_e_commit_granularity_witness :
    (∃ ts, Effect.dbCommit (upsertMembers (db42).players (syncMembers w42)) ts
        ∈ (fetchAndSync {} 100 w42 ⟨false, 0⟩ db42 cache42).effects
        ∧ tanksFor 42 ts = [])
      ∧ tanksFor 42 (fetchAndSync {} 100 w42 ⟨false, 0⟩ db42 cache42).db.tanks
        = buildRows 100 (syncFinalCache {} w42 cache42) 42 items42 :=
  stage_e_commit_granularity {} 100 w42 ⟨false, 0⟩ db42 cache42 42 items42 rfl
    (by decide) (by decide) rfl (by decide) rfl (by decide)

/-- C1 (counterexample): in a run where account 42 starts with one stale
row and ends with one fresh row, a committed snapshot in which account 42
has no rows at all is visible in the effect trace — a state that is
neither the old row set nor the new one, so the delete and the insert are
not inside one transaction. -/
theorem c1_counterexample :
    Effect.dbCommit [(42, "bob")] []
        ∈ (fetchAndSync {} 100 w42 ⟨false, 0⟩ db42 cache42).effects
      ∧ tanksFor 42 db42.tanks ≠ []
      ∧ tanksFor 42 (fetchAndSync {} 100 w42 ⟨false, 0⟩ db42 cache42).db.tanks ≠ []
      ∧ tanksFor 42 (fetchAndSync {} 100 w42 ⟨false, 0⟩ db42 cache42).db.tanks
          ≠ tanksFor 42 db42.tanks := by
  refine ⟨?_, ?_, ?_, ?_⟩ <;> decide

/-- C6: an entered, non-aborted run performs the full-catalog dump fetch
exactly once when ids were missing and the still-unresolved fraction
after batching exceeds 25% of the run's unique-id total (the source
condition over the exact rational), and performs none otherwise — in
particular never twice. -/
theorem dump_fallback_one_shot (cfg : Config) (now : Int) (w : World)
    (st : SyncState) (db : DB) (cache : Cache)
    (h1 : st.running = false)
    (h2 : ¬ (now - st.lastSyncTs < cfg.minSyncInterval))
    (h3 : (syncMembers w).isEmpty = false)
    (h4 : w.playerCommitOk = true) :
    ((fetchAndSync cfg now w st db cache).effects.countP isDumpEffect)
      = if (syncMissing cache w).isEmpty then 0
        else if dumpCond (syncMissingAfter cfg w cache).length
            (syncUnique w).length then 1 else 0 := by
  rw [fetchAndSync_entered h1 h2]
  show ((runBody cfg now w db cache).2.2.countP isDumpEffect) = _
  rw [runBody_main h3 h4]
  simp only [List.countP_cons, List.countP_append, countP_tanksCalls_dump,
    stageE_countP_dump, resolveStage_countDump]
  simp [isDumpEffect, syncMissing, syncMissingAfter, syncCacheAfterBatches]

theorem dump_fallback_one_shot_witness :
    (((fetchAndSync {} 100 w10 ⟨false, 0⟩ ⟨[], []⟩ []).effects.countP isDumpEffect)
        = if (syncMissing [] w10).isEmpty then 0
          else if dumpCond (syncMissingAfter {} w10 []).length
              (syncUnique w10).length then 1 else 0)
      ∧ ((fetchAndSync {} 100 w10 ⟨false, 0⟩ ⟨[], []⟩ []).effects.countP
          isDumpEffect) = 1 :=
  ⟨dump_fallback_one_shot {} 100 w10 ⟨false, 0⟩ ⟨[], []⟩ [] rfl (by decide)
      (by decide) rfl, by decide⟩

/-- C8: a vehicle id whose string form is a key of the in-memory cache at
the start of a run is contained in no batched encyclopedia request that
run issues: the missing list is computed against that cache and every
batch is a slice of the missing list. -/
theorem cache_short_circuit (cfg : Config) (now : Int) (w : World)
    (st : SyncState) (db : DB) (cache : Cache) (tid : Int) (ids : List Int)
    (hc : (lookupS cache (toString tid)).isSome = true)
    (hmem : Effect.remote (RemoteCall.batchCall ids)
      ∈ (fetchAndSync cfg now w st db cache).effects) :
    tid ∉ ids := by
  intro htid
  by_cases hr : st.running = true
  · rw [fetchAndSync_noop (Or.inl hr)] at hmem
    simp at hmem
  · simp only [Bool.not_eq_true] at hr
    by_cases ht : now - st.lastSyncTs < cfg.minSyncInterval
    · rw [fetchAndSync_noop (Or.inr ht)] at hmem
      simp at hmem
    · rw [fetchAndSync_entered hr ht] at hmem
      have hmem2 : Effect.remote (RemoteCall.batchCall ids)
          ∈ (runBody cfg now w db cache).2.2 := hmem
      by_cases h3 : (syncMembers w).isEmpty = true
      · rw [runBody_abort_empty h3] at hmem2
        simp at hmem2
      · simp only [Bool.not_eq_true] at h3
        by_cases h4 : w.playerCommitOk = true
        · rw [runBody_main h3 h4] at hmem2
          rcases List.mem_cons.mp hmem2 with he | hmem3
          · simp at he
          · rcases List.mem_cons.mp hmem3 with he | hmem4
            · simp at he
            · rcases List.mem_append.mp hmem4 with hmem5 | hmem5
              · rcases List.mem_append.mp hmem5 with hmem6 | hmem6
                · obtain ⟨x, -, he⟩ := List.mem_map.mp hmem6
                  simp at he
                · have hchunk := resolveStage_batch_mem hmem6
                  have : tid ∈ missingOf cache (syncUnique w) :=
                    chunks_subset hchunk tid htid
                  exact not_mem_missingOf hc this
              · obtain ⟨ts, he⟩ := stageE_effects_shape _ _ _ _ _ _ _ hmem5
                simp at he
        · simp only [Bool.not_eq_true] at h4
          rw [runBody_abort_playerCommit h3 h4] at hmem2
          simp at hmem2

theorem cache_short_circuit_witness : (100 : Int) ∉ [(7 : Int)] :=
  cache_short_circuit {} 100 w8 ⟨false, 0⟩ ⟨[], []⟩ cache8 100 [7] (by decide)
    (by decide)

/-- C9: saving any string-keyed mapping of JSON values with
`save_tank_cache` and loading the file back with `load_tank_cache` yields
exactly the mapping saved, whatever the file held before. -/
theorem tank_cache_roundtrip (m : List (String × Jval)) (fs : CacheFileState) :
    load_tank_cache (save_tank_cache m fs) = Jval.obj m := by
  show (match parseTop (render (Jval.obj m)) with
      | some v => v
      | none => Jval.obj []) = Jval.obj m
  rw [parseTop_render]

/-- C10 (amended): a batched metadata response entry holding a falsy
(null or empty) value is not stored by the batch path: the id's key stays
absent from the cache, so the id remains in the unresolved list, counts
toward the 25% fallback threshold, and is requested again as long as
nothing caches it — but the full-catalog dump fallback stores response
values unconditionally, nulls included, and an id cached that way is
never requested again. -/
theorem falsy_batch_not_cached (c : Cache) (entries : List (String × MetaVal))
    (unique : List Int) (tid : Int)
    (hf : ∀ v, (toString tid, v) ∈ entries → v.truthy = false)
    (hu : tid ∈ unique)
    (hc : lookupS c (toString tid) = none) :
    lookupS (applyBatchEntries c entries) (toString tid) = none
      ∧ tid ∈ missingOf (applyBatchEntries c entries) unique := by
  have h1 := (applyBatchEntries_lookup_falsy entries c (toString tid) hf).trans hc
  exact ⟨h1, mem_missingOf hu h1⟩

theorem falsy_batch_not_cached_witness :
    lookupS (applyBatchEntries [] [("7", MetaVal.null)]) (toString (7 : Int)) = none
      ∧ (7 : Int) ∈ missingOf (applyBatchEntries [] [("7", MetaVal.null)]) [7] :=
  falsy_batch_not_cached [] [("7", MetaVal.null)] [7] 7
    (fun v hv => by
      have h := List.mem_singleton.mp hv
      injection h with h1 h2
      rw [h2]
      rfl)
    (by decide) (by decide)

/-- C10 (counterexample): the batched response maps id 7 to JSON null,
yet after the run the cache does hold key 7 (bound to null, stored by the
full-catalog dump that the same run triggered), and the next sync issues
no batched request at all — so the id is neither left out of the cache
nor requested again, and the cache does record a negative result. -/
theorem c10_counterexample :
    w10.batchResult [7] = some [("7", MetaVal.null)]
      ∧ lookupS (fetchAndSync {} 100 w10 ⟨false, 0⟩ ⟨[], []⟩ []).cache "7"
          = some MetaVal.null
      ∧ ((fetchAndSync {} 300 w10
            (fetchAndSync {} 100 w10 ⟨false, 0⟩ ⟨[], []⟩ []).state
            (fetchAndSync {} 100 w10 ⟨false, 0⟩ ⟨[], []⟩ []).db
            (fetchAndSync {} 100 w10 ⟨false, 0⟩ ⟨[], []⟩ []).cache).effects.countP
          isBatchEffect) = 0 := by
  refine ⟨?_, ?_, ?_⟩ <;> decide

end Wotcs
